import Mathlib

/-!
Verification of the spotify-data-pipeline ingestion core.

The definitions below are a shallow embedding of the Python sources
`lambda-functions/spotify-ingestion/package/spotify_client.py`,
`.../package/handler.py` and `.../package/utils.py`.

The external history API is modelled as a stream of scripted responses,
one per request issued by a walker: each element is either a page of
already-normalized track records or a request-level error.  Running past
the end of the script behaves as an empty page (the retention boundary).
Machine state touched by the Lambda handler (the S3 checkpoint object and
the batch store) is passed explicitly as a `PipelineState`; the two S3
writes can be made to fail through flags in `Env`.
-/

/-- Play record, as produced by the transform loops in
`spotify_client.py` (lines 154-168, 233-247, 329-343).  Only the
`played_at_timestamp` field (epoch milliseconds) is ever inspected by the
ingestion logic; `track_id` stands for the rest of the payload and lets
two records with equal timestamps be distinguished. -/
structure Track where
  played_at_timestamp : Nat
  track_id : Nat
deriving DecidableEq, Repr

/-- One scripted response of the history API: a page of items, or a
request-level exception. -/
abbrev ApiResponse := Except Unit (List Track)

/-- Comparison key used by the sort in both walkers: the
`played_at_timestamp` field. -/
def tsLe (a b : Track) : Bool :=
  a.played_at_timestamp ≤ b.played_at_timestamp

/-- Embedding of the `all_tracks.sort` call keyed on `played_at_timestamp`
(spotify_client.py lines 278 and 371): a stable ascending sort on the
epoch-millisecond field. -/
def sortTracks (tracks : List Track) : List Track :=
  tracks.mergeSort tsLe

/-- Loop body of `get_all_recent_history` (spotify_client.py lines
215-275), by recursion on the response stream.  Mirrors, in order: the
empty-page break, the extend, the short-page break, the backward-cursor
update to the oldest (last) item of the page, the 100-page ceiling, and
the except-clause that keeps already-collected tracks on an error
mid-walk but re-raises a first-page error. -/
def backfillLoop (responses : List ApiResponse) (all_tracks : List Track)
    (before_timestamp : Option Nat) (page : Nat) : Except Unit (List Track) :=
  match responses with
  | [] => Except.ok all_tracks
  | r :: rest =>
    match r with
    | Except.error _ =>
        if all_tracks.isEmpty then Except.error () else Except.ok all_tracks
    | Except.ok [] => Except.ok all_tracks
    | Except.ok (t :: ts) =>
        let all' := all_tracks ++ t :: ts
        if (t :: ts).length < 50 then Except.ok all'
        else
          let before' := ((t :: ts).getLast (List.cons_ne_nil t ts)).played_at_timestamp
          if page + 1 > 100 then Except.ok all'
          else backfillLoop rest all' (some before') (page + 1)

/-- Embedding of `SpotifyClient.get_all_recent_history`
(spotify_client.py lines 193-287): run the backward pagination loop from
an unset cursor and page counter 1, then sort ascending by timestamp. -/
def get_all_recent_history (responses : List ApiResponse) :
    Except Unit (List Track) :=
  (backfillLoop responses [] none 1).map sortTracks

/-- Loop body of `get_recent_plays_since` (spotify_client.py lines
314-368), by recursion on the response stream.  The second component
records, for each request actually issued, the value passed as the
`after` parameter.  Mirrors, in order: the empty-page break, the extend,
the short-page break, the forward-cursor update to the first item of the
current page (`tracks[0]`), the 10-page ceiling, and the except-clause
keeping collected tracks on a mid-walk error. -/
def incrementalLoop (responses : List ApiResponse) (all_new_tracks : List Track)
    (current_after : Nat) (page : Nat) :
    Except Unit (List Track) × List Nat :=
  match responses with
  | [] => (Except.ok all_new_tracks, [current_after])
  | r :: rest =>
    match r with
    | Except.error _ =>
        (if all_new_tracks.isEmpty then Except.error ()
         else Except.ok all_new_tracks, [current_after])
    | Except.ok [] => (Except.ok all_new_tracks, [current_after])
    | Except.ok (t :: ts) =>
        let all' := all_new_tracks ++ t :: ts
        if (t :: ts).length < 50 then (Except.ok all', [current_after])
        else if page + 1 > 10 then (Except.ok all', [current_after])
        else
          let next := incrementalLoop rest all' t.played_at_timestamp (page + 1)
          (next.1, current_after :: next.2)

/-- Embedding of `SpotifyClient.get_recent_plays_since`
(spotify_client.py lines 290-374): run the forward pagination loop from
the supplied checkpoint timestamp, then sort ascending. -/
def get_recent_plays_since (responses : List ApiResponse)
    (after_timestamp : Nat) : Except Unit (List Track) :=
  ((incrementalLoop responses [] after_timestamp 1).1).map sortTracks

/-- Sequence of `after` request parameters issued by one run of
`get_recent_plays_since`, as recorded by `incrementalLoop`. -/
def get_recent_plays_since_requests (responses : List ApiResponse)
    (after_timestamp : Nat) : List Nat :=
  (incrementalLoop responses [] after_timestamp 1).2

/-- Embedding of `SpotifyClient.get_recently_played` (spotify_client.py
lines 117-175): a single request whose response is the head of the
stream; request errors propagate to the caller.  The `limit` and `after`
arguments shape only the request parameters (see
`recently_played_params`). -/
def get_recently_played (responses : List ApiResponse)
    (limit : Nat) (after : Option Nat) : Except Unit (List Track) :=
  match responses with
  | [] => Except.ok []
  | r :: _ => r

/-- Request parameters of `get_recently_played`. -/
structure RequestParams where
  limit : Nat
  after : Option Nat
deriving DecidableEq

/-- Parameter construction of `get_recently_played` (spotify_client.py
lines 139-147): the limit is capped at 50, and the `after` key is added
only when `after` is truthy in Python, so `None` and `0` both omit it. -/
def recently_played_params (limit : Nat) (after : Option Nat) : RequestParams :=
  let limit' := if 50 < limit then 50 else limit
  { limit := limit'
    after := match after with
             | some a => if a != 0 then some a else none
             | none => none }

/-- Embedding of `utils.get_latest_timestamp` (utils.py lines 79-92):
`None` on an empty list, otherwise the maximum `played_at_timestamp`. -/
def get_latest_timestamp (tracks : List Track) : Option Nat :=
  match tracks with
  | [] => none
  | t :: ts => some (ts.foldl (fun m u => max m u.played_at_timestamp)
      t.played_at_timestamp)

/-- Body of the checkpoint object stored at `state/last_run_state.json`;
only the `last_processed_timestamp` field is read back, via `dict.get`,
hence the `Option`. -/
structure StateDoc where
  last_processed_timestamp : Option Nat
deriving DecidableEq

/-- Outcome of the `s3.get_object` call inside `load_state_from_s3`:
either the parsed document, or a `ClientError` with an error code. -/
inductive GetObjectResult where
  | found : StateDoc → GetObjectResult
  | clientError : String → GetObjectResult
deriving DecidableEq

/-- S3 `get_object` semantics for the checkpoint key: a missing key
surfaces as a `ClientError` with code `NoSuchKey`. -/
def s3_get_object (store : Option StateDoc) : GetObjectResult :=
  match store with
  | some doc => GetObjectResult.found doc
  | none => GetObjectResult.clientError "NoSuchKey"

/-- Embedding of `utils.load_state_from_s3` (utils.py lines 256-282):
return the stored timestamp; turn a `NoSuchKey` client error into `None`
(first run); re-raise every other error. -/
def load_state_from_s3 (r : GetObjectResult) : Except String (Option Nat) :=
  match r with
  | GetObjectResult.found doc => Except.ok doc.last_processed_timestamp
  | GetObjectResult.clientError code =>
      if code = "NoSuchKey" then Except.ok none else Except.error code

/-- External state owned by the two S3-backed stores: the checkpoint
value (from `state/last_run_state.json`) and the batch store, one object
appended per successful `save_tracks_to_s3` call. -/
structure PipelineState where
  checkpoint : Option Nat
  batches : List (List (Track))
deriving DecidableEq

/-- One run environment: the scripted API responses and whether each of
the two S3 writes of the handler succeeds. -/
structure Env where
  responses : List ApiResponse
  saveTracksOk : Bool
  saveStateOk : Bool

/-- Run outcome reported by the handler on success (handler.py lines 37
and 48). -/
inductive RunResult where
  | noNewTracks : RunResult
  | processed : Nat → RunResult
deriving DecidableEq

/-- Fetch phase of `lambda_handler` (handler.py lines 26-33): a Python
truthiness test on the loaded state picks the walker, so both `None` and
`0` take the first-run branch, which issues a single
`get_recently_played(limit=50)` request. -/
def handlerFetch (env : Env) (st : PipelineState) : Except Unit (List Track) :=
  match st.checkpoint with
  | some last_timestamp =>
      if last_timestamp != 0 then
        get_recent_plays_since env.responses last_timestamp
      else
        get_recently_played env.responses 50 none
  | none => get_recently_played env.responses 50 none

/-- Embedding of `lambda_handler` (handler.py lines 16-52): fetch, stop
with no writes on an empty batch, persist the batch
(`save_tracks_to_s3`), then advance the checkpoint (`save_state_to_s3`).
A raised exception anywhere leaves the remaining steps unexecuted and is
re-raised; the final store state is returned alongside the outcome. -/
def lambda_handler (env : Env) (st : PipelineState) :
    PipelineState × Except Unit RunResult :=
  match handlerFetch env st with
  | Except.error e => (st, Except.error e)
  | Except.ok tracks =>
    if tracks.isEmpty then (st, Except.ok RunResult.noNewTracks)
    else if env.saveTracksOk = false then (st, Except.error ())
    else
      let batches' := st.batches ++ [tracks]
      if env.saveStateOk = false then
        ({ st with batches := batches' }, Except.error ())
      else
        ({ checkpoint := get_latest_timestamp tracks, batches := batches' },
         Except.ok (RunResult.processed tracks.length))

deriving instance DecidableEq for Except

set_option maxRecDepth 8000

/-! ## General lemmas about the sort and max helpers -/

theorem tsLe_trans (a b c : Track) (h1 : tsLe a b) (h2 : tsLe b c) : tsLe a c := by
  simp only [tsLe, decide_eq_true_eq] at h1 h2 ⊢
  omega

theorem tsLe_total (a b : Track) : tsLe a b || tsLe b a := by
  simp only [tsLe, Bool.or_eq_true, decide_eq_true_eq]
  omega

theorem sortTracks_sorted (l : List Track) :
    (sortTracks l).Pairwise
      (fun a b => a.played_at_timestamp ≤ b.played_at_timestamp) := by
  have h := List.sorted_mergeSort tsLe_trans tsLe_total l
  exact h.imp (fun hab => by simpa [tsLe] using hab)

theorem sortTracks_length (l : List Track) : (sortTracks l).length = l.length :=
  List.length_mergeSort l

theorem sortTracks_mem (t : Track) (l : List Track) :
    t ∈ sortTracks l ↔ t ∈ l :=
  List.mem_mergeSort

theorem sortTracks_of_sorted (l : List Track)
    (h : l.Pairwise (fun a b => tsLe a b)) : sortTracks l = l :=
  List.mergeSort_of_sorted h

theorem le_foldl_max (l : List Track) (m : Nat) :
    m ≤ l.foldl (fun a u => max a u.played_at_timestamp) m := by
  induction l generalizing m with
  | nil => exact Nat.le_refl m
  | cons u us ih =>
      exact Nat.le_trans (Nat.le_max_left m u.played_at_timestamp) (ih _)

theorem get_latest_timestamp_cons (t : Track) (ts : List Track) :
    ∃ v, get_latest_timestamp (t :: ts) = some v ∧ t.played_at_timestamp ≤ v :=
  ⟨_, rfl, le_foldl_max ts t.played_at_timestamp⟩

theorem flatten_length_of_full (pages : List (List Track)) (n : Nat)
    (hfull : ∀ q ∈ pages, q.length = n) :
    pages.flatten.length = pages.length * n := by
  induction pages with
  | nil => simp
  | cons q qs ih =>
      have hq : q.length = n := hfull q (by simp)
      have hqs : ∀ p ∈ qs, p.length = n := fun p hp => hfull p (by simp [hp])
      simp [List.flatten_cons, hq, ih hqs, Nat.succ_mul, Nat.add_comm]

theorem flatten_ne_nil_of_full (pages : List (List Track))
    (hne : pages ≠ []) (hfull : ∀ q ∈ pages, q.length = 50) :
    pages.flatten ≠ [] := by
  cases pages with
  | nil => exact absurd rfl hne
  | cons q qs =>
      have hq : q.length = 50 := hfull q (by simp)
      cases q with
      | nil => simp at hq
      | cons t ts => simp [List.flatten_cons]

/-! ## Lemmas about the backfill pagination loop -/

theorem backfillLoop_error_mid (rest : List ApiResponse) (acc : List Track)
    (b : Option Nat) (p : Nat) (e : Unit) (h : acc ≠ []) :
    backfillLoop (Except.error e :: rest) acc b p = Except.ok acc := by
  simp [backfillLoop, List.isEmpty_eq_true, h]

theorem backfillLoop_first_error (rest : List ApiResponse) (b : Option Nat)
    (p : Nat) (e : Unit) :
    backfillLoop (Except.error e :: rest) [] b p = Except.error () := by
  simp [backfillLoop]

theorem backfillLoop_run_full (pages : List (List Track))
    (rest : List ApiResponse) (acc : List Track) (b : Option Nat) (p : Nat)
    (hfull : ∀ q ∈ pages, q.length = 50) (hp : p + pages.length ≤ 100) :
    ∃ b2, backfillLoop ((pages.map Except.ok) ++ rest) acc b p
        = backfillLoop rest (acc ++ pages.flatten) b2 (p + pages.length) := by
  induction pages generalizing acc b p with
  | nil => exact ⟨b, by simp⟩
  | cons q qs ih =>
      obtain ⟨t, ts, rfl⟩ : ∃ t ts, q = t :: ts := by
        cases q with
        | nil => exact absurd (hfull [] (by simp)) (by simp)
        | cons t ts => exact ⟨t, ts, rfl⟩
      have hq : (t :: ts).length = 50 := hfull _ (by simp)
      have h1 : ¬ (ts.length + 1 < 50) := by
        simp only [List.length_cons] at hq
        omega
      have h2 : ¬ (p + 1 > 100) := by
        simp only [List.length_cons] at hp
        omega
      have hqs : ∀ q ∈ qs, q.length = 50 := fun q hq => hfull q (by simp [hq])
      have hp2 : (p + 1) + qs.length ≤ 100 := by
        simp only [List.length_cons] at hp
        omega
      have hstep : backfillLoop ((((t :: ts) :: qs).map Except.ok) ++ rest) acc b p
          = backfillLoop ((qs.map Except.ok) ++ rest) (acc ++ t :: ts)
              (some (((t :: ts).getLast (List.cons_ne_nil t ts)).played_at_timestamp))
              (p + 1) := by
        simp [backfillLoop, h1, h2]
      obtain ⟨b2, hb2⟩ := ih (acc ++ t :: ts)
        (some (((t :: ts).getLast (List.cons_ne_nil t ts)).played_at_timestamp))
        (p + 1) hqs hp2
      have harith : (p + 1) + qs.length = p + ((t :: ts) :: qs).length := by
        simp only [List.length_cons]
        omega
      refine ⟨b2, ?_⟩
      rw [hstep, hb2, harith, List.flatten_cons, ← List.append_assoc]

theorem backfillLoop_short_page (t : Track) (ts : List Track)
    (rest : List ApiResponse) (acc : List Track) (b : Option Nat) (p : Nat)
    (hshort : (t :: ts).length < 50) :
    backfillLoop (Except.ok (t :: ts) :: rest) acc b p
      = Except.ok (acc ++ t :: ts) := by
  have hl : ts.length + 1 < 50 := by simpa using hshort
  simp [backfillLoop, hl]

theorem backfillLoop_ceiling (t : Track) (ts : List Track)
    (rest : List ApiResponse) (acc : List Track) (b : Option Nat)
    (hq : (t :: ts).length = 50) :
    backfillLoop (Except.ok (t :: ts) :: rest) acc b 100
      = Except.ok (acc ++ t :: ts) := by
  have h1 : ¬ (ts.length + 1 < 50) := by
    simp only [List.length_cons] at hq
    omega
  simp [backfillLoop, h1]

/-! ## Lemmas about the incremental pagination loop -/

theorem incrementalLoop_error_mid (rest : List ApiResponse) (acc : List Track)
    (cur p : Nat) (e : Unit) (h : acc ≠ []) :
    (incrementalLoop (Except.error e :: rest) acc cur p).1 = Except.ok acc := by
  simp [incrementalLoop, List.isEmpty_eq_true, h]

theorem incrementalLoop_first_error (rest : List ApiResponse) (cur p : Nat)
    (e : Unit) :
    (incrementalLoop (Except.error e :: rest) [] cur p).1 = Except.error () := by
  simp [incrementalLoop]

theorem incrementalLoop_run_full (pages : List (List Track))
    (rest : List ApiResponse) (acc : List Track) (cur p : Nat)
    (hfull : ∀ q ∈ pages, q.length = 50) (hp : p + pages.length ≤ 10) :
    ∃ cur2, (incrementalLoop ((pages.map Except.ok) ++ rest) acc cur p).1
        = (incrementalLoop rest (acc ++ pages.flatten) cur2 (p + pages.length)).1 := by
  induction pages generalizing acc cur p with
  | nil => exact ⟨cur, by simp⟩
  | cons q qs ih =>
      obtain ⟨t, ts, rfl⟩ : ∃ t ts, q = t :: ts := by
        cases q with
        | nil => exact absurd (hfull [] (by simp)) (by simp)
        | cons t ts => exact ⟨t, ts, rfl⟩
      have hq : (t :: ts).length = 50 := hfull _ (by simp)
      have h1 : ¬ (ts.length + 1 < 50) := by
        simp only [List.length_cons] at hq
        omega
      have h2 : ¬ (p + 1 > 10) := by
        simp only [List.length_cons] at hp
        omega
      have hqs : ∀ q ∈ qs, q.length = 50 := fun q hq => hfull q (by simp [hq])
      have hp2 : (p + 1) + qs.length ≤ 10 := by
        simp only [List.length_cons] at hp
        omega
      have hstep : (incrementalLoop ((((t :: ts) :: qs).map Except.ok) ++ rest)
            acc cur p).1
          = (incrementalLoop ((qs.map Except.ok) ++ rest) (acc ++ t :: ts)
              t.played_at_timestamp (p + 1)).1 := by
        simp [incrementalLoop, h1, h2]
      obtain ⟨cur2, hc2⟩ := ih (acc ++ t :: ts) t.played_at_timestamp (p + 1)
        hqs hp2
      have harith : (p + 1) + qs.length = p + ((t :: ts) :: qs).length := by
        simp only [List.length_cons]
        omega
      refine ⟨cur2, ?_⟩
      rw [hstep, hc2, harith, List.flatten_cons, ← List.append_assoc]

theorem incrementalLoop_short_page (t : Track) (ts : List Track)
    (rest : List ApiResponse) (acc : List Track) (cur p : Nat)
    (hshort : (t :: ts).length < 50) :
    (incrementalLoop (Except.ok (t :: ts) :: rest) acc cur p).1
      = Except.ok (acc ++ t :: ts) := by
  have hl : ts.length + 1 < 50 := by simpa using hshort
  simp [incrementalLoop, hl]

theorem incrementalLoop_log_full (pages : List (List Track))
    (acc : List Track) (cur p : Nat)
    (hfull : ∀ q ∈ pages, q.length = 50) (hp : p + pages.length ≤ 10) :
    (incrementalLoop ((pages.map Except.ok) ++ [Except.ok []]) acc cur p).2
      = cur :: pages.map (fun q => (q.headD ⟨0, 0⟩).played_at_timestamp) := by
  induction pages generalizing acc cur p with
  | nil => simp [incrementalLoop]
  | cons q qs ih =>
      obtain ⟨t, ts, rfl⟩ : ∃ t ts, q = t :: ts := by
        cases q with
        | nil => exact absurd (hfull [] (by simp)) (by simp)
        | cons t ts => exact ⟨t, ts, rfl⟩
      have hq : (t :: ts).length = 50 := hfull _ (by simp)
      have h1 : ¬ (ts.length + 1 < 50) := by
        simp only [List.length_cons] at hq
        omega
      have h2 : ¬ (p + 1 > 10) := by
        simp only [List.length_cons] at hp
        omega
      have hqs : ∀ q ∈ qs, q.length = 50 := fun q hq => hfull q (by simp [hq])
      have hp2 : (p + 1) + qs.length ≤ 10 := by
        simp only [List.length_cons] at hp
        omega
      have hrec := ih (acc ++ t :: ts) t.played_at_timestamp (p + 1) hqs hp2
      simp [incrementalLoop, h1, h2, hrec]

theorem incrementalLoop_mem (rs : List ApiResponse) (acc : List Track)
    (cur p : Nat) (l : List Track)
    (h : (incrementalLoop rs acc cur p).1 = Except.ok l) :
    ∀ t ∈ l, t ∈ acc ∨ ∃ items, Except.ok items ∈ rs ∧ t ∈ items := by
  induction rs generalizing acc cur p with
  | nil =>
      simp only [incrementalLoop, Except.ok.injEq] at h
      subst h
      exact fun t ht => Or.inl ht
  | cons r rest ih =>
      cases r with
      | error e =>
          by_cases hge : acc = []
          · subst hge
            simp [incrementalLoop] at h
          · rw [incrementalLoop_error_mid rest acc cur p e hge,
              Except.ok.injEq] at h
            subst h
            exact fun t ht => Or.inl ht
      | ok items =>
          cases items with
          | nil =>
              simp only [incrementalLoop, Except.ok.injEq] at h
              subst h
              exact fun t ht => Or.inl ht
          | cons t ts =>
              by_cases hlen : ts.length + 1 < 50
              · rw [incrementalLoop_short_page t ts rest acc cur p
                  (by simpa using hlen), Except.ok.injEq] at h
                subst h
                intro u hu
                rcases List.mem_append.mp hu with hu | hu
                · exact Or.inl hu
                · exact Or.inr ⟨t :: ts, by simp, hu⟩
              · by_cases hpage : p + 1 > 10
                · have h10 : (incrementalLoop (Except.ok (t :: ts) :: rest)
                      acc cur p).1 = Except.ok (acc ++ t :: ts) := by
                    simp [incrementalLoop, hlen, hpage]
                  rw [h10, Except.ok.injEq] at h
                  subst h
                  intro u hu
                  rcases List.mem_append.mp hu with hu | hu
                  · exact Or.inl hu
                  · exact Or.inr ⟨t :: ts, by simp, hu⟩
                · have hcont : (incrementalLoop (Except.ok (t :: ts) :: rest)
                      acc cur p).1
                      = (incrementalLoop rest (acc ++ t :: ts)
                          t.played_at_timestamp (p + 1)).1 := by
                    simp [incrementalLoop, hlen, hpage]
                  rw [hcont] at h
                  intro u hu
                  rcases ih (acc ++ t :: ts) t.played_at_timestamp (p + 1) h
                      u hu with hin | ⟨items, hm, hui⟩
                  · rcases List.mem_append.mp hin with hin | hin
                    · exact Or.inl hin
                    · exact Or.inr ⟨t :: ts, by simp, hin⟩
                  · exact Or.inr ⟨items, by simp [hm], hui⟩

/-! ## Unfolding lemmas for the handler -/

theorem lambda_handler_error (env : Env) (st : PipelineState) (e : Unit)
    (hf : handlerFetch env st = Except.error e) :
    lambda_handler env st = (st, Except.error e) := by
  unfold lambda_handler
  rw [hf]

theorem lambda_handler_ok (env : Env) (st : PipelineState)
    (tracks : List Track) (hf : handlerFetch env st = Except.ok tracks) :
    lambda_handler env st
      = (if tracks.isEmpty then (st, Except.ok RunResult.noNewTracks)
         else if env.saveTracksOk = false then (st, Except.error ())
         else if env.saveStateOk = false then
           ({ st with batches := st.batches ++ [tracks] }, Except.error ())
         else
           ({ checkpoint := get_latest_timestamp tracks,
              batches := st.batches ++ [tracks] },
            Except.ok (RunResult.processed tracks.length))) := by
  unfold lambda_handler
  rw [hf]

/-! ## Concrete pages used by witnesses and counterexamples -/

/-- Full page of 50 distinct records, timestamps 100..149 ascending. -/
def pageFull : List Track := (List.range 50).map (fun i => ⟨100 + i, i⟩)

/-- Short page of 49 distinct records, timestamps 0..48 ascending. -/
def pageShort : List Track := (List.range 49).map (fun i => ⟨i, i⟩)

/-- Full page whose first record has timestamp 10 while the remaining 49
records have timestamp 999. -/
def pageHead10 : List Track :=
  ⟨10, 0⟩ :: (List.range 49).map (fun i => ⟨999, i + 1⟩)

/-! ## C1 -/

/-- C1, counterexample: neither walker deduplicates.  A single backfill
page holding two distinct records with the same epoch-millisecond
timestamp is returned unchanged, so the batch contains two elements with
equal `played_at_timestamp`. -/
theorem C1_counterexample :
    get_all_recent_history [Except.ok [⟨5, 0⟩, ⟨5, 1⟩]]
      = Except.ok [⟨5, 0⟩, ⟨5, 1⟩] ∧
    (⟨5, 0⟩ : Track).played_at_timestamp
      = (⟨5, 1⟩ : Track).played_at_timestamp ∧
    (⟨5, 0⟩ : Track) ≠ (⟨5, 1⟩ : Track) := by
  refine ⟨?_, rfl, by decide⟩
  have hb : backfillLoop [Except.ok [⟨5, 0⟩, ⟨5, 1⟩]] [] none 1
      = Except.ok [⟨5, 0⟩, ⟨5, 1⟩] := rfl
  have hs : sortTracks [⟨5, 0⟩, ⟨5, 1⟩] = [⟨5, 0⟩, ⟨5, 1⟩] :=
    sortTracks_of_sorted _ (by decide)
  unfold get_all_recent_history
  rw [hb]
  simp [Except.map, hs]

/-- C1, amended: every successfully returned batch of either walker is
sorted ascending by `played_at_timestamp` (with ties allowed); no
deduplication by epoch-millisecond equality is performed. -/
theorem C1_batches_sorted (rs : List ApiResponse) (a : Nat)
    (l1 l2 : List Track)
    (h1 : get_all_recent_history rs = Except.ok l1)
    (h2 : get_recent_plays_since rs a = Except.ok l2) :
    l1.Pairwise (fun x y => x.played_at_timestamp ≤ y.played_at_timestamp) ∧
    l2.Pairwise (fun x y => x.played_at_timestamp ≤ y.played_at_timestamp) := by
  constructor
  · unfold get_all_recent_history at h1
    cases hb : backfillLoop rs [] none 1 with
    | error e => rw [hb] at h1; simp [Except.map] at h1
    | ok m =>
        rw [hb] at h1
        simp only [Except.map, Except.ok.injEq] at h1
        subst h1
        exact sortTracks_sorted m
  · unfold get_recent_plays_since at h2
    cases hi : (incrementalLoop rs [] a 1).1 with
    | error e => rw [hi] at h2; simp [Except.map] at h2
    | ok m =>
        rw [hi] at h2
        simp only [Except.map, Except.ok.injEq] at h2
        subst h2
        exact sortTracks_sorted m

/-- C1, witness: both walkers on a one-page script. -/
theorem C1_witness :
    ([⟨5, 0⟩] : List Track).Pairwise
      (fun x y => x.played_at_timestamp ≤ y.played_at_timestamp) ∧
    ([⟨5, 0⟩] : List Track).Pairwise
      (fun x y => x.played_at_timestamp ≤ y.played_at_timestamp) :=
  C1_batches_sorted [Except.ok [⟨5, 0⟩]] 0 [⟨5, 0⟩] [⟨5, 0⟩]
    (by unfold get_all_recent_history
        have hb : backfillLoop [Except.ok [⟨5, 0⟩]] [] none 1
            = Except.ok [⟨5, 0⟩] := rfl
        rw [hb]
        simp [Except.map, sortTracks])
    (by unfold get_recent_plays_since
        have hi : (incrementalLoop [Except.ok [⟨5, 0⟩]] [] 0 1).1
            = Except.ok [⟨5, 0⟩] := rfl
        rw [hi]
        simp [Except.map, sortTracks])

/-! ## C4 -/

/-- C4: the checkpoint write happens only after the batch write.  If the
batch persist fails, the whole pipeline state (checkpoint included) is
unchanged; and whenever the run changes the checkpoint, a non-empty batch
was appended to the batch store. -/
theorem C4_write_then_advance (env : Env) (st : PipelineState) :
    (env.saveTracksOk = false → (lambda_handler env st).1 = st) ∧
    ((lambda_handler env st).1.checkpoint ≠ st.checkpoint →
      ∃ tracks, tracks ≠ [] ∧
        (lambda_handler env st).1.batches = st.batches ++ [tracks]) := by
  cases hf : handlerFetch env st with
  | error e =>
      rw [lambda_handler_error env st e hf]
      exact ⟨fun _ => rfl, fun hcontra => absurd rfl hcontra⟩
  | ok tracks =>
      rw [lambda_handler_ok env st tracks hf]
      by_cases he : tracks.isEmpty = true
      · simp [he]
      · by_cases hsv : env.saveTracksOk = false
        · simp [he, hsv]
        · by_cases hss : env.saveStateOk = false
          · simp [he, hsv, hss]
          · have hval :
                (if tracks.isEmpty then (st, Except.ok RunResult.noNewTracks)
                 else if env.saveTracksOk = false then (st, Except.error ())
                 else if env.saveStateOk = false then
                   ({ st with batches := st.batches ++ [tracks] },
                    Except.error ())
                 else
                   ({ checkpoint := get_latest_timestamp tracks,
                      batches := st.batches ++ [tracks] },
                    Except.ok (RunResult.processed tracks.length)))
                = ({ checkpoint := get_latest_timestamp tracks,
                     batches := st.batches ++ [tracks] },
                   Except.ok (RunResult.processed tracks.length)) := by
              simp [he, hsv, hss]
            rw [hval]
            refine ⟨fun hcontra => absurd hcontra hsv, fun _ => ?_⟩
            exact ⟨tracks, by simpa [List.isEmpty_eq_true] using he, rfl⟩

/-- C4, witness: a failing batch write leaves the state untouched, and a
successful run that moves the checkpoint appended its batch. -/
theorem C4_witness :
    (lambda_handler ⟨[Except.ok [⟨7, 0⟩]], false, true⟩
        ⟨none, []⟩).1 = ⟨none, []⟩ ∧
    ∃ tracks, tracks ≠ [] ∧
      (lambda_handler ⟨[Except.ok [⟨7, 0⟩]], true, true⟩
          ⟨none, []⟩).1.batches = ([] : List (List Track)) ++ [tracks] :=
  ⟨(C4_write_then_advance ⟨[Except.ok [⟨7, 0⟩]], false, true⟩ ⟨none, []⟩).1 rfl,
   (C4_write_then_advance ⟨[Except.ok [⟨7, 0⟩]], true, true⟩ ⟨none, []⟩).2
     (by decide)⟩

/-! ## C7 -/

/-- C7: when the selected walker returns an empty batch, the handler
terminates successfully with no write to either store. -/
theorem C7_empty_batch_no_writes (env : Env) (st : PipelineState)
    (h : handlerFetch env st = Except.ok []) :
    lambda_handler env st = (st, Except.ok RunResult.noNewTracks) := by
  rw [lambda_handler_ok env st [] h]
  simp

/-- C7, witness: an exhausted response script yields an empty batch and
an unchanged state. -/
theorem C7_witness :
    lambda_handler ⟨[], true, true⟩ ⟨none, [[⟨1, 1⟩]]⟩
      = (⟨none, [[⟨1, 1⟩]]⟩, Except.ok RunResult.noNewTracks) :=
  C7_empty_batch_no_writes ⟨[], true, true⟩ ⟨none, [[⟨1, 1⟩]]⟩ rfl

/-! ## C8 -/

/-- C8: loading the checkpoint never raises when the key is missing — a
`NoSuchKey` client error maps to the Absent value — while every other
client error is re-raised. -/
theorem C8_load_state_missing (code : String) (hc : code ≠ "NoSuchKey") :
    load_state_from_s3 (s3_get_object none) = Except.ok none ∧
    load_state_from_s3 (GetObjectResult.clientError code)
      = Except.error code := by
  refine ⟨rfl, ?_⟩
  simp [load_state_from_s3, hc]

/-- C8, witness: instantiated at the `AccessDenied` error code. -/
theorem C8_witness :
    load_state_from_s3 (s3_get_object none) = Except.ok none ∧
    load_state_from_s3 (GetObjectResult.clientError "AccessDenied")
      = Except.error "AccessDenied" :=
  C8_load_state_missing "AccessDenied" (by decide)

/-! ## C10 -/

/-- C10: a stored checkpoint equal to `0` is treated exactly as the
Absent state — the handler takes the first-run branch — and
`get_recently_played` omits the `after` request parameter when passed
`after = 0`, because both tests are Python truthiness tests. -/
theorem C10_zero_checkpoint_first_run (env : Env) (st : PipelineState)
    (limit : Nat) (h : st.checkpoint = some 0) :
    handlerFetch env st = get_recently_played env.responses 50 none ∧
    handlerFetch env { st with checkpoint := none } = handlerFetch env st ∧
    (recently_played_params limit (some 0)).after = none := by
  refine ⟨?_, ?_, ?_⟩
  · unfold handlerFetch
    rw [h]
    simp
  · unfold handlerFetch
    rw [h]
    simp
  · simp [recently_played_params]

/-- C10, witness: instantiated at a state holding checkpoint `0`. -/
theorem C10_witness :
    handlerFetch ⟨[Except.ok [⟨8, 0⟩]], true, true⟩ ⟨some 0, []⟩
      = get_recently_played [Except.ok [⟨8, 0⟩]] 50 none ∧
    handlerFetch ⟨[Except.ok [⟨8, 0⟩]], true, true⟩
        { (⟨some 0, []⟩ : PipelineState) with checkpoint := none }
      = handlerFetch ⟨[Except.ok [⟨8, 0⟩]], true, true⟩ ⟨some 0, []⟩ ∧
    (recently_played_params 50 (some 0)).after = none :=
  C10_zero_checkpoint_first_run ⟨[Except.ok [⟨8, 0⟩]], true, true⟩
    ⟨some 0, []⟩ 50 rfl

/-! ## C5 -/

/-- C5: both walkers preserve the progress already made.  When a request-level
error arrives after n full pages were collected (so the walk actually
issues the failing request, hence n is within the page ceiling), the walk
returns exactly the plays of those pages; when the very first request
errors, the error propagates. -/
theorem C5_error_preserves_progress (pages : List (List Track))
    (rest rest2 : List ApiResponse) (a : Nat)
    (hne : pages ≠ []) (hfull : ∀ q ∈ pages, q.length = 50) :
    (pages.length ≤ 99 →
      get_all_recent_history ((pages.map Except.ok) ++ Except.error () :: rest)
        = Except.ok (sortTracks pages.flatten)) ∧
    (pages.length ≤ 9 →
      get_recent_plays_since ((pages.map Except.ok) ++ Except.error () :: rest) a
        = Except.ok (sortTracks pages.flatten)) ∧
    get_all_recent_history (Except.error () :: rest2) = Except.error () ∧
    get_recent_plays_since (Except.error () :: rest2) a = Except.error () := by
  have hflat : pages.flatten ≠ [] := flatten_ne_nil_of_full pages hne hfull
  refine ⟨?_, ?_, ?_, ?_⟩
  · intro h99
    obtain ⟨b2, hb⟩ := backfillLoop_run_full pages (Except.error () :: rest)
      [] none 1 hfull (by omega)
    unfold get_all_recent_history
    rw [hb, backfillLoop_error_mid rest ([] ++ pages.flatten) b2
      (1 + pages.length) () (by simpa using hflat)]
    simp [Except.map]
  · intro h9
    obtain ⟨cur2, hi⟩ := incrementalLoop_run_full pages
      (Except.error () :: rest) [] a 1 hfull (by omega)
    unfold get_recent_plays_since
    rw [hi, incrementalLoop_error_mid rest ([] ++ pages.flatten) cur2
      (1 + pages.length) () (by simpa using hflat)]
    simp [Except.map]
  · unfold get_all_recent_history
    rw [backfillLoop_first_error rest2 none 1 ()]
    rfl
  · unfold get_recent_plays_since
    rw [incrementalLoop_first_error rest2 a 1 ()]
    rfl

/-- C5, witness: one full page followed by an error, and an immediate
first-page error, for both walkers. -/
theorem C5_witness :
    get_all_recent_history (([pageFull].map Except.ok)
        ++ Except.error () :: [])
      = Except.ok (sortTracks ([pageFull] : List (List Track)).flatten) ∧
    get_recent_plays_since (([pageFull].map Except.ok)
        ++ Except.error () :: []) 0
      = Except.ok (sortTracks ([pageFull] : List (List Track)).flatten) ∧
    get_all_recent_history (Except.error () :: []) = Except.error () ∧
    get_recent_plays_since (Except.error () :: []) 0 = Except.error () := by
  obtain ⟨h1, h2, h3, h4⟩ := C5_error_preserves_progress [pageFull] [] [] 0 (by simp)
    (by intro q hq
        simp only [List.mem_singleton] at hq
        subst hq
        decide)
  exact ⟨h1 (by decide), h2 (by decide), h3, h4⟩

/-! ## C6 -/

/-- C6, counterexample: with k = 100 full pages before the short page,
the 100-page safety ceiling stops the walk after 5000 plays, so the
claimed count of k * 50 + 49 = 5049 is not reached. -/
theorem C6_counterexample :
    (get_all_recent_history (List.replicate 100 (Except.ok pageFull)
        ++ [Except.ok pageShort])).map List.length = Except.ok 5000 ∧
    (5000 : Nat) ≠ 100 * 50 + 49 := by
  refine ⟨?_, by decide⟩
  have hrep : (List.replicate 100 (Except.ok pageFull)
        ++ [Except.ok pageShort] : List ApiResponse)
      = ((List.replicate 99 pageFull).map Except.ok)
          ++ Except.ok pageFull :: [Except.ok pageShort] := by
    rw [List.map_replicate, show (100 : Nat) = 99 + 1 from rfl,
      List.replicate_succ']
    simp
  have hfull99 : ∀ q ∈ List.replicate 99 pageFull, q.length = 50 := by
    intro q hq
    rw [List.eq_of_mem_replicate hq]
    decide
  obtain ⟨b2, hb⟩ := backfillLoop_run_full (List.replicate 99 pageFull)
    (Except.ok pageFull :: [Except.ok pageShort]) [] none 1 hfull99 (by simp)
  obtain ⟨t, ts, hpf⟩ : ∃ t ts, pageFull = t :: ts := by
    cases hx : pageFull with
    | nil => exact absurd hx (by decide)
    | cons t ts => exact ⟨t, ts, rfl⟩
  have h100 : 1 + (List.replicate 99 pageFull).length = 100 := by simp
  have hq50 : (t :: ts).length = 50 := by rw [← hpf]; decide
  have hloop : backfillLoop (List.replicate 100 (Except.ok pageFull)
      ++ [Except.ok pageShort]) [] none 1
      = Except.ok (([] ++ (List.replicate 99 pageFull).flatten) ++ t :: ts) := by
    rw [hrep, hb, h100, hpf]
    exact backfillLoop_ceiling t ts [Except.ok pageShort]
      ([] ++ (List.replicate 99 (t :: ts)).flatten) b2 hq50
  unfold get_all_recent_history
  rw [hloop]
  simp only [Except.map, sortTracks_length, List.nil_append,
    List.length_append, Except.ok.injEq]
  have hfl := flatten_length_of_full (List.replicate 99 pageFull) 50 hfull99
  simp only [List.length_replicate] at hfl
  simp only [List.length_cons] at hq50 ⊢
  omega

/-- C6, amended: for every k with 0 ≤ k ≤ 99 (so that the 100-page safety
ceiling is not hit), an API script of k full pages followed by one page of
49 items makes the backfill walker return exactly k * 50 + 49 plays and
stop at the short page — the result does not depend on anything placed
after the short page in the script. -/
theorem C6_backfill_termination (k : Nat) (pages : List (List Track))
    (lastPage : List Track) (rest : List ApiResponse)
    (hk : pages.length = k) (hk99 : k ≤ 99)
    (hfull : ∀ q ∈ pages, q.length = 50) (hlast : lastPage.length = 49) :
    get_all_recent_history ((pages.map Except.ok) ++ Except.ok lastPage :: rest)
      = Except.ok (sortTracks (pages.flatten ++ lastPage)) ∧
    (get_all_recent_history ((pages.map Except.ok)
        ++ Except.ok lastPage :: rest)).map List.length
      = Except.ok (k * 50 + 49) := by
  obtain ⟨s, ss, rfl⟩ : ∃ s ss, lastPage = s :: ss := by
    cases lastPage with
    | nil => simp at hlast
    | cons s ss => exact ⟨s, ss, rfl⟩
  obtain ⟨b2, hb⟩ := backfillLoop_run_full pages (Except.ok (s :: ss) :: rest)
    [] none 1 hfull (by omega)
  have hstop := backfillLoop_short_page s ss rest ([] ++ pages.flatten) b2
    (1 + pages.length) (by omega)
  have hfirst : get_all_recent_history ((pages.map Except.ok)
      ++ Except.ok (s :: ss) :: rest)
      = Except.ok (sortTracks (pages.flatten ++ s :: ss)) := by
    unfold get_all_recent_history
    rw [hb, hstop]
    simp [Except.map]
  refine ⟨hfirst, ?_⟩
  rw [hfirst]
  simp only [Except.map, sortTracks_length, List.length_append,
    Except.ok.injEq]
  have hfl := flatten_length_of_full pages 50 hfull
  simp only [List.length_cons] at hlast ⊢
  omega

/-- C6, witness: zero full pages and the short page alone. -/
theorem C6_witness :
    get_all_recent_history ((([] : List (List Track)).map Except.ok)
        ++ Except.ok pageShort :: [])
      = Except.ok (sortTracks (([] : List (List Track)).flatten ++ pageShort)) ∧
    (get_all_recent_history ((([] : List (List Track)).map Except.ok)
        ++ Except.ok pageShort :: [])).map List.length
      = Except.ok (0 * 50 + 49) :=
  C6_backfill_termination 0 [] pageShort [] rfl (by decide)
    (by intro q hq; simp at hq) (by decide)

/-! ## C2 -/

/-- C2, counterexample: with an Absent checkpoint and two pages of
history available (50 + 49 plays), the handler persists only the single
first page of 50 plays, while the backfill walker over the same script
would assemble all 99 — so the orchestrator does not run the backfill
walker. -/
theorem C2_counterexample :
    (lambda_handler ⟨[Except.ok pageFull, Except.ok pageShort], true, true⟩
        ⟨none, []⟩).2 = Except.ok (RunResult.processed 50) ∧
    (lambda_handler ⟨[Except.ok pageFull, Except.ok pageShort], true, true⟩
        ⟨none, []⟩).1.batches = [pageFull] ∧
    (get_all_recent_history [Except.ok pageFull, Except.ok pageShort]).map
        List.length = Except.ok 99 ∧
    (50 : Nat) ≠ 99 := by
  refine ⟨by decide, by decide, ?_, by decide⟩
  have hb : backfillLoop [Except.ok pageFull, Except.ok pageShort] [] none 1
      = Except.ok (pageFull ++ pageShort) := by decide
  unfold get_all_recent_history
  rw [hb]
  simp only [Except.map, sortTracks_length, List.length_append,
    Except.ok.injEq]
  decide

/-- C2, amended: when the checkpoint is Absent the handler takes the
first-run branch, which issues a single `get_recently_played(limit=50)`
request; consequently the whole run depends only on the first response of
the script (and the store flags), never on later pages. -/
theorem C2_first_run_single_page (env env2 : Env) (st : PipelineState)
    (hc : st.checkpoint = none)
    (hh : env.responses.head? = env2.responses.head?)
    (h1 : env.saveTracksOk = env2.saveTracksOk)
    (h2 : env.saveStateOk = env2.saveStateOk) :
    handlerFetch env st = get_recently_played env.responses 50 none ∧
    lambda_handler env st = lambda_handler env2 st := by
  have hrp : ∀ (rs : List ApiResponse) (l : Nat) (a : Option Nat),
      get_recently_played rs l a = (rs.head?).getD (Except.ok []) := by
    intro rs l a
    cases rs <;> rfl
  have hf : handlerFetch env st = get_recently_played env.responses 50 none := by
    unfold handlerFetch
    rw [hc]
  have hf2 : handlerFetch env2 st
      = get_recently_played env2.responses 50 none := by
    unfold handlerFetch
    rw [hc]
  have hfe : handlerFetch env st = handlerFetch env2 st := by
    rw [hf, hf2, hrp, hrp, hh]
  refine ⟨hf, ?_⟩
  unfold lambda_handler
  rw [hfe, h1, h2]

/-- C2, witness: scripts sharing the first page give identical runs from
the Absent state, even though one script has a second page. -/
theorem C2_witness :
    handlerFetch ⟨[Except.ok pageFull], true, true⟩ ⟨none, []⟩
      = get_recently_played [Except.ok pageFull] 50 none ∧
    lambda_handler ⟨[Except.ok pageFull], true, true⟩ ⟨none, []⟩
      = lambda_handler ⟨[Except.ok pageFull, Except.ok pageShort], true, true⟩
          ⟨none, []⟩ :=
  C2_first_run_single_page ⟨[Except.ok pageFull], true, true⟩
    ⟨[Except.ok pageFull, Except.ok pageShort], true, true⟩ ⟨none, []⟩
    rfl rfl rfl rfl

/-! ## C3 -/

/-- C3, counterexample: starting from checkpoint 5, a first full page
whose first item has timestamp 10 while later items reach 999 makes the
walker request page 2 with after = 10, although the maximum timestamp
fetched so far is 999. -/
theorem C3_counterexample :
    get_recent_plays_since_requests [Except.ok pageHead10, Except.ok []] 5
      = [5, 10] ∧
    get_latest_timestamp pageHead10 = some 999 ∧
    (10 : Nat) ≠ 999 :=
  ⟨by decide, by decide, by decide⟩

/-- C3, amended: after each non-final page the cursor passed as the next
`after` parameter is the `played_at_timestamp` of the first item of the
current page (`tracks[0]`, the provider-newest item of that page), not
the maximum over all items fetched so far. -/
theorem C3_cursor_from_current_page (pages : List (List Track)) (a : Nat)
    (hfull : ∀ q ∈ pages, q.length = 50) (hp : pages.length ≤ 9) :
    get_recent_plays_since_requests ((pages.map Except.ok) ++ [Except.ok []]) a
      = a :: pages.map (fun q => (q.headD ⟨0, 0⟩).played_at_timestamp) :=
  incrementalLoop_log_full pages [] a 1 hfull (by omega)

/-- C3, witness: one full page script starting from checkpoint 7. -/
theorem C3_witness :
    get_recent_plays_since_requests (([pageFull].map Except.ok)
        ++ [Except.ok []]) 7
      = 7 :: [pageFull].map (fun q => (q.headD ⟨0, 0⟩).played_at_timestamp) :=
  C3_cursor_from_current_page [pageFull] 7
    (by intro q hq
        simp only [List.mem_singleton] at hq
        subst hq
        decide)
    (by decide)

/-! ## C9 -/

/-- C9: checkpoint monotonicity.  For a run starting from a stored
checkpoint `c`, if every item the API hands back is newer than `c` (the
assumption the claim makes about the `after` semantics) and the run
succeeds, the stored checkpoint afterwards is `some cB` with `c ≤ cB` —
so across any sequence of successful runs the checkpoint never
decreases. -/
theorem C9_checkpoint_monotone (env : Env) (st stB : PipelineState)
    (c : Nat) (r : RunResult)
    (hc : st.checkpoint = some c)
    (hapi : ∀ items, Except.ok items ∈ env.responses →
      ∀ t ∈ items, c < t.played_at_timestamp)
    (hrun : lambda_handler env st = (stB, Except.ok r)) :
    ∃ cB, stB.checkpoint = some cB ∧ c ≤ cB := by
  cases hf : handlerFetch env st with
  | error e =>
      rw [lambda_handler_error env st e hf, Prod.mk.injEq] at hrun
      exact absurd hrun.2 (by simp)
  | ok tracks =>
      rw [lambda_handler_ok env st tracks hf] at hrun
      by_cases he : tracks.isEmpty = true
      · rw [if_pos he, Prod.mk.injEq] at hrun
        refine ⟨c, ?_, Nat.le_refl c⟩
        rw [← hrun.1, hc]
      · rw [if_neg he] at hrun
        by_cases hsv : env.saveTracksOk = false
        · rw [if_pos hsv, Prod.mk.injEq] at hrun
          exact absurd hrun.2 (by simp)
        · rw [if_neg hsv] at hrun
          by_cases hss : env.saveStateOk = false
          · rw [if_pos hss, Prod.mk.injEq] at hrun
            exact absurd hrun.2 (by simp)
          · rw [if_neg hss, Prod.mk.injEq] at hrun
            have hB : stB.checkpoint = get_latest_timestamp tracks := by
              rw [← hrun.1]
            obtain ⟨u, us, hts⟩ : ∃ u us, tracks = u :: us := by
              cases tracks with
              | nil => simp at he
              | cons u us => exact ⟨u, us, rfl⟩
            obtain ⟨v, hv, huv⟩ := get_latest_timestamp_cons u us
            by_cases hc0 : c = 0
            · refine ⟨v, ?_, by omega⟩
              rw [hB, hts, hv]
            · have hfi : get_recent_plays_since env.responses c
                  = Except.ok tracks := by
                unfold handlerFetch at hf
                rw [hc] at hf
                simpa [hc0] using hf
              unfold get_recent_plays_since at hfi
              cases hil : (incrementalLoop env.responses [] c 1).1 with
              | error e => rw [hil] at hfi; simp [Except.map] at hfi
              | ok m =>
                  rw [hil] at hfi
                  simp only [Except.map, Except.ok.injEq] at hfi
                  have husort : u ∈ sortTracks m := by
                    rw [hfi, hts]
                    exact List.mem_cons_self u us
                  have hum : u ∈ m := (sortTracks_mem u m).mp husort
                  rcases incrementalLoop_mem env.responses [] c 1 m hil u hum
                    with hin | ⟨items, hmem, hui⟩
                  · simp at hin
                  · have hcu := hapi items hmem u hui
                    refine ⟨v, ?_, by omega⟩
                    rw [hB, hts, hv]

/-- C9, witness: a successful incremental run from checkpoint 100 that
ingests one play at timestamp 150. -/
theorem C9_witness :
    ∃ cB, (⟨some 150, [[(⟨150, 0⟩ : Track)]]⟩ : PipelineState).checkpoint
        = some cB ∧ 100 ≤ cB := by
  have hg : get_recent_plays_since [Except.ok [⟨150, 0⟩]] 100
      = Except.ok [⟨150, 0⟩] := by
    unfold get_recent_plays_since
    have hi : (incrementalLoop [Except.ok [⟨150, 0⟩]] [] 100 1).1
        = Except.ok [⟨150, 0⟩] := rfl
    rw [hi]
    simp [Except.map, sortTracks]
  refine C9_checkpoint_monotone ⟨[Except.ok [⟨150, 0⟩]], true, true⟩
    ⟨some 100, []⟩ ⟨some 150, [[⟨150, 0⟩]]⟩ 100 (RunResult.processed 1)
    rfl ?_ ?_
  · intro items hm t ht
    simp only [List.mem_singleton] at hm
    injection hm with hm2
    subst hm2
    simp only [List.mem_singleton] at ht
    subst ht
    decide
  · rw [lambda_handler_ok ⟨[Except.ok [⟨150, 0⟩]], true, true⟩
      ⟨some 100, []⟩ [⟨150, 0⟩] hg]
    decide
